import Mathlib

/-!
Shallow embedding of the linenoisy line editor (src/editor.go).

The editor state (`Term`) mirrors the Go `Terminal` struct; every edit
primitive is translated from the corresponding Go method.  Byte-level
terminal output is abstracted into a trace of `Out` events (bell, one
render, completion grid, help table, clear screen); in this model writes
to the output stream never fail, so the `error` results of the Go methods
can only arise from input reads, which are modelled explicitly in
`edLoop`.  A Go runtime panic (index out of range) is modelled as `none`.
-/

namespace Linenoisy

/-- Control byte constants from the Go const block. -/
def ctrlA : Char := '\x01'

/-- Control byte ctrl-B. -/
def ctrlB : Char := '\x02'

/-- Control byte ctrl-C. -/
def ctrlC : Char := '\x03'

/-- Control byte ctrl-D. -/
def ctrlD : Char := '\x04'

/-- Control byte ctrl-E. -/
def ctrlE : Char := '\x05'

/-- Control byte ctrl-F. -/
def ctrlF : Char := '\x06'

/-- Control byte ctrl-H. -/
def ctrlH : Char := '\x08'

/-- Tab byte. -/
def tab : Char := '\x09'

/-- Control byte ctrl-K. -/
def ctrlK : Char := '\x0b'

/-- Control byte ctrl-L. -/
def ctrlL : Char := '\x0c'

/-- Enter byte (carriage return). -/
def enter : Char := '\x0d'

/-- Control byte ctrl-N. -/
def ctrlN : Char := '\x0e'

/-- Control byte ctrl-P. -/
def ctrlP : Char := '\x10'

/-- Control byte ctrl-T. -/
def ctrlT : Char := '\x14'

/-- Control byte ctrl-U. -/
def ctrlU : Char := '\x15'

/-- Control byte ctrl-W. -/
def ctrlW : Char := '\x17'

/-- Escape byte. -/
def esc : Char := '\x1b'

/-- Backspace byte (DEL). -/
def backspace : Char := '\x7f'

/-- Observable output events; byte-level rendering is abstracted. -/
inductive Out where
  | beep
  | refresh
  | grid (opts : List String)
  | helpTable (dict : List (String × String))
  | clear
  deriving Repr, DecidableEq

/-- History: ordered entries with the last one as the mutable scratch slot,
plus a position pointer (Go `History` struct, `Lines []string` and `Pos int`). -/
structure History where
  Lines : List String
  Pos : Int
  deriving Repr, DecidableEq

/-- Go `History.Add`: initialize an empty history to one empty slot, freeze the
scratch slot to `l`, append a new empty scratch slot, point at it. -/
def History.add (h : History) (l : String) : History :=
  let lines := if h.Lines = [] then [""] else h.Lines
  let lines2 := (lines.set (lines.length - 1) l) ++ [""]
  { Lines := lines2, Pos := (lines2.length : Int) - 1 }

/-- Go `History.Next`: move the pointer forward, failing at the last entry. -/
def History.next (h : History) : Except String History :=
  if h.Pos ≥ (h.Lines.length : Int) - 1 then .error "end of history"
  else .ok { h with Pos := h.Pos + 1 }

/-- Go `History.Prev`: move the pointer backward, failing at the first entry. -/
def History.prev (h : History) : Except String History :=
  if h.Pos ≤ 0 then .error "beginning of history"
  else .ok { h with Pos := h.Pos - 1 }

/-- Go `History.Get`: the entry at the pointer; `none` models the index panic
when the pointer is out of range. -/
def History.get (h : History) : Option String :=
  if h.Pos < 0 then none else h.Lines[h.Pos.toNat]?

/-- Go `History.Save`: initialize an empty history to one empty slot, then write
`l` into the scratch (last) slot only when the pointer is on it. -/
def History.save (h : History) (l : String) : History :=
  let lines := if h.Lines = [] then [""] else h.Lines
  if h.Pos ≠ (lines.length : Int) - 1 then { h with Lines := lines }
  else { h with Lines := lines.set (lines.length - 1) l }

/-- Editor state: the fields of the Go `Terminal` struct that the edit loop
reads or writes (the stream handles are replaced by explicit input lists and
output event traces). -/
structure Term where
  Prompt : String
  Buffer : List Char
  Cur : Int
  OldCur : Int
  Cols : Int
  Rows : Int
  MaxRows : Int
  History : History
  Complete : Option (String → List String)
  Help : Option (String → List (String × String))
  Hint : Option (String → String)
  WidthChar : Option (Char → Int)

/-- The buffer as a string (Go `string(e.Buffer)`). -/
def bufStr (e : Term) : String := String.mk e.Buffer

/-- Go `defaultWidth`: tab is 4 columns, everything else 1. -/
def defaultWidth (r : Char) : Int :=
  if r = tab then 4 else 1

/-- Go `visualWidth` inner loop: count columns, skipping escape sequences that
run from an ESC byte to the next ASCII letter. -/
def visualWidthAux : List Char → Bool → Nat
  | [], _ => 0
  | r :: rest, inEscSeq =>
    if inEscSeq then
      if ('a' ≤ r ∧ r ≤ 'z') ∨ ('A' ≤ r ∧ r ≤ 'Z') then visualWidthAux rest false
      else visualWidthAux rest true
    else if r = esc then visualWidthAux rest true
    else 1 + visualWidthAux rest false

/-- Go `visualWidth`: on-screen column count of a rune sequence, excluding
embedded escape sequences. -/
def visualWidth (runes : List Char) : Nat :=
  visualWidthAux runes false

/-- Go `Terminal.hint`: the hint callback result, empty without a provider. -/
def hintString (e : Term) : String :=
  match e.Hint with
  | none => ""
  | some f => f (bufStr e)

/-- The MaxRows value after `refreshLine`: raised to the end-of-content row
`ep.rows`, and once more when the forced wrap at the right edge adds a row
(Go `refreshLine`, the two `if ... > e.MaxRows` updates). -/
def rfNewMaxRows (e : Term) : Int :=
  let wc := e.WidthChar.getD defaultWidth
  let pw := (visualWidth e.Prompt.data : Int)
  let bw := (e.Buffer.map wc).sum
  let cw := ((e.Buffer.take e.Cur.toNat).map wc).sum
  let hw := ((hintString e).data.map wc).sum
  let epRows := Int.tdiv (pw + bw + hw) e.Cols
  let cpCols := Int.tmod (pw + cw) e.Cols
  let m1 := if epRows > e.MaxRows then epRows else e.MaxRows
  if e.Cur = (e.Buffer.length : Int) ∧ cpCols = 0 then
    if epRows + 1 > m1 then epRows + 1 else m1
  else m1

/-- State effects of Go `refreshLine`: set the width function if absent,
update MaxRows, and record the cursor as OldCur; the emitted escape
sequences are abstracted into one `Out.refresh` event (writes never fail
in this model). Buffer and Cur are untouched. -/
def refreshLine (e : Term) : Term × List Out :=
  ({ e with WidthChar := some (e.WidthChar.getD defaultWidth),
            MaxRows := rfNewMaxRows e,
            OldCur := e.Cur }, [Out.refresh])

/-- Go `beep`: emit a bell, state unchanged. -/
def beep (e : Term) : Term × List Out :=
  (e, [Out.beep])

/-- Go `notZero`: default geometry 80 by 24 for zero fields. -/
def notZero (e : Term) : Term :=
  let e1 := if e.Rows = 0 then { e with Rows := 24 } else e
  if e1.Cols = 0 then { e1 with Cols := 80 } else e1

/-- Go `LineReset`: clear buffer, both cursors and MaxRows, then render. -/
def lineReset (e : Term) : Term × List Out :=
  let e1 := notZero e
  refreshLine { e1 with Buffer := [], OldCur := 0, Cur := 0, MaxRows := 0 }

/-- Go `editBackspace`: at the left edge beep, otherwise remove the rune
before the cursor (slice-trick deletion, modelled as `eraseIdx`) and step
the cursor left. -/
def editBackspace (e : Term) : Term × List Out :=
  if e.Cur = 0 then beep e
  else
    let cur := e.Cur - 1
    refreshLine { e with Cur := cur, Buffer := e.Buffer.eraseIdx cur.toNat }

/-- Go `editDelete`: at the right edge beep, otherwise remove the rune at the
cursor (slice-trick deletion, modelled as `eraseIdx`); the cursor stays. -/
def editDelete (e : Term) : Term × List Out :=
  if e.Cur = (e.Buffer.length : Int) then beep e
  else refreshLine { e with Buffer := e.Buffer.eraseIdx e.Cur.toNat }

/-- Transpose position `p` of Go `editSwap`: the cursor, moved one left when
it sits at the end of the buffer. -/
def swapPos (e : Term) : Int :=
  if e.Cur = (e.Buffer.length : Int) then (e.Buffer.length : Int) - 1 else e.Cur

/-- Go `editSwap`: beep when `p = 0`; otherwise exchange the runes at `p-1`
and `p` and advance the cursor unless it is at the end. `none` models the Go
index panic when `p-1` or `p` is outside the buffer (for instance ctrl-T on
an empty buffer, where `p = -1`). -/
def editSwap (e : Term) : Option (Term × List Out) :=
  let p := swapPos e
  if p = 0 then some (beep e)
  else if 1 ≤ p ∧ p < (e.Buffer.length : Int) then
    let i := (p - 1).toNat
    let j := p.toNat
    let a := e.Buffer.getD i ' '
    let b := e.Buffer.getD j ' '
    some (refreshLine { e with
      Buffer := (e.Buffer.set i b).set j a,
      Cur := if e.Cur < (e.Buffer.length : Int) then e.Cur + 1 else e.Cur })
  else none

/-- Go `editMoveLeft`: beep at the left edge, otherwise step the cursor left. -/
def editMoveLeft (e : Term) : Term × List Out :=
  if e.Cur = 0 then beep e
  else refreshLine { e with Cur := e.Cur - 1 }

/-- Go `editMoveRight`: beep at the right edge, otherwise step the cursor right. -/
def editMoveRight (e : Term) : Term × List Out :=
  if e.Cur = (e.Buffer.length : Int) then beep e
  else refreshLine { e with Cur := e.Cur + 1 }

/-- Go `editMoveHome`: beep when already at the start, otherwise cursor to 0. -/
def editMoveHome (e : Term) : Term × List Out :=
  if e.Cur = 0 then beep e
  else refreshLine { e with Cur := 0 }

/-- Go `editMoveEnd`: beep when already at the end, otherwise cursor to the end. -/
def editMoveEnd (e : Term) : Term × List Out :=
  if e.Cur = (e.Buffer.length : Int) then beep e
  else refreshLine { e with Cur := (e.Buffer.length : Int) }

/-- Go `editKillForward`: truncate the buffer at the cursor. -/
def editKillForward (e : Term) : Term × List Out :=
  refreshLine { e with Buffer := e.Buffer.take e.Cur.toNat }

/-- The scan loop of Go `editDeletePrevWord`: walking left from `i = n - 1`,
skip runes of the word (setting `w`), then stop one past the first space
found before the word; 0 when the loop runs out. -/
def scanPrevWord (buf : List Char) : Nat → Bool → Nat
  | 0, _ => 0
  | i + 1, w =>
    if buf.getD i ' ' ≠ ' ' then scanPrevWord buf i true
    else if !w then scanPrevWord buf i w
    else i + 1

/-- Go `editDeletePrevWord`: truncate the buffer at the scan position and move
the cursor there. -/
def editDeletePrevWord (e : Term) : Term × List Out :=
  let p := scanPrevWord e.Buffer e.Cur.toNat false
  refreshLine { e with Buffer := e.Buffer.take p, Cur := (p : Int) }

/-- Go `editInsert`: splice the rune in at the cursor (slice-trick insertion,
modelled as `insertIdx`) and advance the cursor. -/
def editInsert (e : Term) (r : Char) : Term × List Out :=
  refreshLine { e with Buffer := e.Buffer.insertIdx e.Cur.toNat r, Cur := e.Cur + 1 }

/-- Go `editHistoryPrev`: save the live buffer into the scratch slot, then move
back; a failed move beeps but keeps the saved history, a successful one loads
the entry with the cursor at its end. `none` models the index panic of `Get`. -/
def editHistoryPrev (e : Term) : Option (Term × List Out) :=
  let h := e.History.save (bufStr e)
  match h.prev with
  | .error _ => some (beep { e with History := h })
  | .ok h2 =>
    match h2.get with
    | none => none
    | some s =>
      some (refreshLine { e with History := h2, Buffer := s.data,
                                 Cur := (s.data.length : Int) })

/-- Go `editHistoryNext`: move forward without saving; a failed move beeps,
a successful one loads the entry with the cursor at its end. `none` models
the index panic of `Get`. -/
def editHistoryNext (e : Term) : Option (Term × List Out) :=
  match e.History.next with
  | .error _ => some (beep e)
  | .ok h2 =>
    match h2.get with
    | none => none
    | some s =>
      some (refreshLine { e with History := h2, Buffer := s.data,
                                 Cur := (s.data.length : Int) })

/-- Go `completeLine`: without a provider insert a literal tab; with one,
beep on zero candidates, adopt a single candidate with the cursor at its
end, and print the candidate grid (a `Out.grid` event; the tabwriter layout
is stdlib work outside this repository) leaving the buffer alone otherwise. -/
def completeLine (e : Term) : Term × List Out :=
  match e.Complete with
  | none => editInsert e tab
  | some f =>
    let opts := f (bufStr e)
    match opts with
    | [] => beep e
    | [c] => refreshLine { e with Buffer := c.data, Cur := (c.data.length : Int) }
    | _ =>
      let p := refreshLine e
      (p.1, Out.grid opts :: p.2)

/-- Go `printHelp`: without a provider insert a literal question mark; with
one, print the help table (a `Out.helpTable` event) and re-render. -/
def printHelp (e : Term) : Term × List Out :=
  match e.Help with
  | none => editInsert e '?'
  | some f =>
    let dict := f (bufStr e)
    let p := refreshLine e
    (p.1, Out.helpTable dict :: p.2)

/-- An input stream element: a decoded rune, or a read failing with an error. -/
inductive In where
  | rune (c : Char)
  | err (s : String)
  deriving Repr, DecidableEq

/-- The Go error value returned by `LineEditor`: `io.EOF` (also used for
ctrl-D on an empty buffer and for stream exhaustion), the ctrl-C
"try again" error, or a propagated read error. -/
inductive GoErr where
  | eof
  | tryAgain
  | ioFail (s : String)
  deriving Repr, DecidableEq

/-- Result of a `LineEditor` run: final state, returned line, returned error
(`none` for a clean enter), and the trace of output events. -/
structure EdResult where
  term : Term
  line : String
  err : Option GoErr
  out : List Out

/-- Prepend output events to a loop result, passing a panic through. -/
def mapOut (o : List Out) : Option EdResult → Option EdResult :=
  Option.map (fun r => { r with out := o ++ r.out })

/-- The read-dispatch loop of Go `LineEditor`, one iteration per decoded rune,
with each Go switch case rendered as a literal pattern; reading from an
exhausted stream yields `io.EOF`, a checked read failure propagates
immediately with the buffer accumulated so far, and `none` models a panic in
an edit primitive. -/
def edLoop (e : Term) : List In → Option EdResult
  | [] => some ⟨e, bufStr e, some .eof, []⟩
  | .err s :: _ => some ⟨e, bufStr e, some (.ioFail s), []⟩
  | .rune '\x0d' :: _ => some ⟨e, bufStr e, none, []⟩
  | .rune '\x09' :: rest =>
    let p := completeLine e
    mapOut p.2 (edLoop p.1 rest)
  | .rune '?' :: rest =>
    let p := printHelp e
    mapOut p.2 (edLoop p.1 rest)
  | .rune '\x7f' :: rest
  | .rune '\x08' :: rest =>
    let p := editBackspace e
    mapOut p.2 (edLoop p.1 rest)
  | .rune '\x03' :: _ => some ⟨e, bufStr e, some .tryAgain, []⟩
  | .rune '\x04' :: rest =>
    if e.Buffer = [] then some ⟨e, bufStr e, some .eof, []⟩
    else
      let p := editDelete e
      mapOut p.2 (edLoop p.1 rest)
  | .rune '\x1b' :: [] => some ⟨e, bufStr e, some .eof, []⟩
  | .rune '\x1b' :: .err s :: _ => some ⟨e, bufStr e, some (.ioFail s), []⟩
  | .rune '\x1b' :: .rune '[' :: [] => some ⟨e, bufStr e, some .eof, []⟩
  | .rune '\x1b' :: .rune '[' :: .err s :: _ =>
    some ⟨e, bufStr e, some (.ioFail s), []⟩
  | .rune '\x1b' :: .rune '[' :: .rune '0' :: rest2
  | .rune '\x1b' :: .rune '[' :: .rune '1' :: rest2
  | .rune '\x1b' :: .rune '[' :: .rune '2' :: rest2
  | .rune '\x1b' :: .rune '[' :: .rune '4' :: rest2
  | .rune '\x1b' :: .rune '[' :: .rune '5' :: rest2
  | .rune '\x1b' :: .rune '[' :: .rune '6' :: rest2
  | .rune '\x1b' :: .rune '[' :: .rune '7' :: rest2
  | .rune '\x1b' :: .rune '[' :: .rune '8' :: rest2
  | .rune '\x1b' :: .rune '[' :: .rune '9' :: rest2 =>
    -- One trailing byte is read and discarded.  In the Go source the read
    -- error of that byte is assigned to the err variable shadowed inside the
    -- bracket clause and never checked again, so a failing read is silently
    -- dropped here and the loop goes on; at the end of the stream the next
    -- top-of-loop read then yields io.EOF.
    (match rest2 with
     | [] => some ⟨e, bufStr e, some .eof, []⟩
     | .err _ :: rest3 => edLoop e rest3
     | .rune _ :: rest3 => edLoop e rest3)
  | .rune '\x1b' :: .rune '[' :: .rune '3' :: [] => some ⟨e, bufStr e, some .eof, []⟩
  | .rune '\x1b' :: .rune '[' :: .rune '3' :: .err s :: _ =>
    some ⟨e, bufStr e, some (.ioFail s), []⟩
  | .rune '\x1b' :: .rune '[' :: .rune '3' :: .rune '~' :: rest3 =>
    let p := editDelete e
    mapOut p.2 (edLoop p.1 rest3)
  | .rune '\x1b' :: .rune '[' :: .rune '3' :: .rune _ :: rest3 => edLoop e rest3
  | .rune '\x1b' :: .rune '[' :: .rune 'A' :: rest2 =>
    (match editHistoryPrev e with
     | none => none
     | some p => mapOut p.2 (edLoop p.1 rest2))
  | .rune '\x1b' :: .rune '[' :: .rune 'B' :: rest2 =>
    (match editHistoryNext e with
     | none => none
     | some p => mapOut p.2 (edLoop p.1 rest2))
  | .rune '\x1b' :: .rune '[' :: .rune 'C' :: rest2 =>
    let p := editMoveRight e
    mapOut p.2 (edLoop p.1 rest2)
  | .rune '\x1b' :: .rune '[' :: .rune 'D' :: rest2 =>
    let p := editMoveLeft e
    mapOut p.2 (edLoop p.1 rest2)
  | .rune '\x1b' :: .rune '[' :: .rune 'H' :: rest2 =>
    let p := editMoveHome e
    mapOut p.2 (edLoop p.1 rest2)
  | .rune '\x1b' :: .rune '[' :: .rune 'F' :: rest2 =>
    let p := editMoveEnd e
    mapOut p.2 (edLoop p.1 rest2)
  | .rune '\x1b' :: .rune '[' :: .rune _ :: rest2 => edLoop e rest2
  | .rune '\x1b' :: .rune 'O' :: [] => some ⟨e, bufStr e, some .eof, []⟩
  | .rune '\x1b' :: .rune 'O' :: .err s :: _ =>
    some ⟨e, bufStr e, some (.ioFail s), []⟩
  | .rune '\x1b' :: .rune 'O' :: .rune 'H' :: rest2 =>
    let p := editMoveHome e
    mapOut p.2 (edLoop p.1 rest2)
  | .rune '\x1b' :: .rune 'O' :: .rune 'F' :: rest2 =>
    let p := editMoveEnd e
    mapOut p.2 (edLoop p.1 rest2)
  | .rune '\x1b' :: .rune 'O' :: .rune _ :: rest2 => edLoop e rest2
  | .rune '\x1b' :: .rune _ :: rest1 => edLoop e rest1
  | .rune '\x0c' :: rest =>
    let p := refreshLine e
    mapOut (Out.clear :: p.2) (edLoop p.1 rest)
  | .rune '\x17' :: rest =>
    let p := editDeletePrevWord e
    mapOut p.2 (edLoop p.1 rest)
  | .rune '\x02' :: rest =>
    let p := editMoveLeft e
    mapOut p.2 (edLoop p.1 rest)
  | .rune '\x06' :: rest =>
    let p := editMoveRight e
    mapOut p.2 (edLoop p.1 rest)
  | .rune '\x10' :: rest =>
    (match editHistoryPrev e with
     | none => none
     | some p => mapOut p.2 (edLoop p.1 rest))
  | .rune '\x0e' :: rest =>
    (match editHistoryNext e with
     | none => none
     | some p => mapOut p.2 (edLoop p.1 rest))
  | .rune '\x15' :: rest =>
    let p := lineReset e
    mapOut p.2 (edLoop p.1 rest)
  | .rune '\x0b' :: rest =>
    let p := editKillForward e
    mapOut p.2 (edLoop p.1 rest)
  | .rune '\x01' :: rest =>
    let p := editMoveHome e
    mapOut p.2 (edLoop p.1 rest)
  | .rune '\x05' :: rest =>
    let p := editMoveEnd e
    mapOut p.2 (edLoop p.1 rest)
  | .rune '\x14' :: rest =>
    (match editSwap e with
     | none => none
     | some p => mapOut p.2 (edLoop p.1 rest))
  | .rune r :: rest =>
    let p := editInsert e r
    mapOut p.2 (edLoop p.1 rest)

/-- Go `LineEditor`: a full line reset followed by the read-dispatch loop. -/
def lineEditor (e : Term) (inp : List In) : Option EdResult :=
  let p := lineReset e
  mapOut p.2 (edLoop p.1 inp)

/-- Match of the cursor-position pattern at exactly the head of the list:
ESC, then a bracket, one or more digits, a semicolon, one or more digits
and a final R; yields the two digit groups. -/
def reportAt (l : List Char) : Option (List Char × List Char) :=
  match l with
  | c1 :: c2 :: rest =>
    if c1 = esc ∧ c2 = '[' then
      let d1 := rest.takeWhile Char.isDigit
      match rest.dropWhile Char.isDigit with
      | ';' :: rest2 =>
        if d1 = [] then none
        else
          let d2 := rest2.takeWhile Char.isDigit
          match rest2.dropWhile Char.isDigit with
          | 'R' :: _ => if d2 = [] then none else some (d1, d2)
          | _ => none
      | _ => none
    else none
  | _ => none

/-- Leftmost match of the cursor-position pattern anywhere in the list,
the search performed by `curPosPattern.FindStringSubmatch`. -/
def matchCurPos : List Char → Option (List Char × List Char)
  | [] => none
  | c :: rest =>
    match reportAt (c :: rest) with
    | some p => some p
    | none => matchCurPos rest

/-- Decimal value of a digit group, the successful case of `strconv.Atoi`. -/
def atoiNat (l : List Char) : Nat :=
  l.foldl (fun acc c => acc * 10 + (c.toNat - 48)) 0

/-- Go `Adjust` after the terminal response `res` (everything up to and
including the first R) has been read: extract the two decimal fields with
the cursor-position regex and store them as Rows and Cols. `none` models
the index-out-of-range panic on `ms[1]` when the regex finds no match,
in which case Cols and Rows are never assigned. -/
def adjust (e : Term) (res : String) : Option Term :=
  match matchCurPos res.data with
  | none => none
  | some (d1, d2) =>
    some { e with Rows := (atoiNat d1 : Int), Cols := (atoiNat d2 : Int) }

/-- The cursor bounds invariant of the specification. -/
def Inv (e : Term) : Prop :=
  0 ≤ e.Cur ∧ e.Cur ≤ (e.Buffer.length : Int)

instance (e : Term) : Decidable (Inv e) := by
  unfold Inv; infer_instance

/-- The cursor bounds invariant for a fallible edit primitive: it holds for
the resulting state whenever the primitive completes (does not panic). -/
def InvO : Option (Term × List Out) → Prop
  | none => True
  | some p => Inv p.1

instance (o : Option (Term × List Out)) : Decidable (InvO o) := by
  unfold InvO; cases o <;> infer_instance

/-- MaxRows does not drop from `e` to the result of a fallible primitive,
whenever that primitive completes. -/
def MaxRowsLeO (e : Term) : Option (Term × List Out) → Prop
  | none => True
  | some p => e.MaxRows ≤ p.1.MaxRows

/-- Writing at the last index replaces the final element. -/
theorem setLastEq {α : Type} (xs : List α) (a : α) (hx : xs ≠ []) :
    xs.set (xs.length - 1) a = xs.dropLast ++ [a] := by
  induction xs with
  | nil => exact absurd rfl hx
  | cons x t ih =>
    cases t with
    | nil => rfl
    | cons y u => simpa [List.set] using ih (by simp)

/-- A render never touches the buffer. -/
theorem refreshLine_Buffer (e : Term) : (refreshLine e).1.Buffer = e.Buffer := rfl

/-- A render never touches the cursor. -/
theorem refreshLine_Cur (e : Term) : (refreshLine e).1.Cur = e.Cur := rfl

/-- The MaxRows field after a render. -/
theorem refreshLine_MaxRows (e : Term) : (refreshLine e).1.MaxRows = rfNewMaxRows e := rfl

/-- The word-boundary scan never runs past its starting position. -/
theorem scanPrevWord_le (buf : List Char) : ∀ n w, scanPrevWord buf n w ≤ n := by
  intro n
  induction n with
  | zero => intro w; simp [scanPrevWord]
  | succ m ih =>
    intro w
    unfold scanPrevWord
    split_ifs with h1 h2
    · exact le_trans (ih true) (Nat.le_succ m)
    · exact le_trans (ih w) (Nat.le_succ m)
    · exact le_refl _

/-- A render can only raise MaxRows. -/
theorem rfNewMaxRows_ge (e : Term) : e.MaxRows ≤ rfNewMaxRows e := by
  simp only [rfNewMaxRows]
  split_ifs <;> omega

/-- A concrete editor state: a zero-value terminal with a prompt, as the repo
tests build it. -/
def t0 : Term :=
  { Prompt := "> ", Buffer := [], Cur := 0, OldCur := 0, Cols := 0, Rows := 0,
    MaxRows := 0, History := ⟨[], 0⟩, Complete := none, Help := none,
    Hint := none, WidthChar := none }

/-- A concrete state holding two runes with the cursor between them. -/
def tAB : Term := { t0 with Buffer := ['a', 'b'], Cur := 1 }

/-- A concrete state holding exactly one rune with the cursor after it. -/
def tA : Term := { t0 with Buffer := ['a'], Cur := 1 }

/-- A concrete narrow-terminal state (4 columns, empty prompt). -/
def t4 : Term :=
  { Prompt := "", Buffer := [], Cur := 0, OldCur := 0, Cols := 4, Rows := 24,
    MaxRows := 0, History := ⟨[], 0⟩, Complete := none, Help := none,
    Hint := none, WidthChar := none }

/-- C1: every primitive edit operation preserves the cursor bounds invariant
0 ≤ Cur ≤ len(Buffer) whenever it completes: insert, backspace, delete,
transpose (when it does not fault), the four moves, kill-to-end,
delete-previous-word, the two history loads (when they do not fault), and the
line reset, which establishes the invariant outright. -/
theorem cursorInvariantPreserved :
    (∀ e r, Inv e → Inv (editInsert e r).1) ∧
    (∀ e, Inv e → Inv (editBackspace e).1) ∧
    (∀ e, Inv e → Inv (editDelete e).1) ∧
    (∀ e, InvO (editSwap e)) ∧
    (∀ e, Inv e → Inv (editMoveLeft e).1) ∧
    (∀ e, Inv e → Inv (editMoveRight e).1) ∧
    (∀ e, Inv e → Inv (editMoveHome e).1) ∧
    (∀ e, Inv e → Inv (editMoveEnd e).1) ∧
    (∀ e, Inv e → Inv (editKillForward e).1) ∧
    (∀ e, Inv e → Inv (editDeletePrevWord e).1) ∧
    (∀ e, Inv e → InvO (editHistoryPrev e)) ∧
    (∀ e, Inv e → InvO (editHistoryNext e)) ∧
    (∀ e, Inv (lineReset e).1) := by
  refine ⟨?_, ?_, ?_, ?_, ?_, ?_, ?_, ?_, ?_, ?_, ?_, ?_, ?_⟩
  · rintro e r ⟨h0, h1⟩
    have hlen : (e.Buffer.insertIdx e.Cur.toNat r).length = e.Buffer.length + 1 :=
      List.length_insertIdx _ _ (by omega)
    simp only [Inv, editInsert, refreshLine_Cur, refreshLine_Buffer, hlen]
    omega
  · rintro e ⟨h0, h1⟩
    unfold editBackspace
    split_ifs with hc
    · exact ⟨h0, h1⟩
    · have hlen : (e.Buffer.eraseIdx (e.Cur - 1).toNat).length = e.Buffer.length - 1 := by
        rw [List.length_eraseIdx, if_pos (by omega)]
      simp only [Inv, refreshLine_Cur, refreshLine_Buffer, hlen]
      omega
  · rintro e ⟨h0, h1⟩
    unfold editDelete
    split_ifs with hc
    · exact ⟨h0, h1⟩
    · have hlen : (e.Buffer.eraseIdx e.Cur.toNat).length = e.Buffer.length - 1 := by
        rw [List.length_eraseIdx, if_pos (by omega)]
      simp only [Inv, refreshLine_Cur, refreshLine_Buffer, hlen]
      omega
  · intro e
    by_cases hc : e.Cur = (e.Buffer.length : Int)
    · have hsp : swapPos e = (e.Buffer.length : Int) - 1 := by
        unfold swapPos; rw [if_pos hc]
      simp only [editSwap, hsp]
      split_ifs with h1 h2 <;>
        simp only [InvO, Inv, beep, refreshLine_Cur, refreshLine_Buffer, List.length_set] <;>
        constructor <;> omega
    · have hsp : swapPos e = e.Cur := by
        unfold swapPos; rw [if_neg hc]
      simp only [editSwap, hsp]
      split_ifs with h1 h2 <;>
        simp only [InvO, Inv, beep, refreshLine_Cur, refreshLine_Buffer, List.length_set] <;>
        constructor <;> omega
  · rintro e ⟨h0, h1⟩
    unfold editMoveLeft
    split_ifs with hc
    · exact ⟨h0, h1⟩
    · simp only [Inv, refreshLine_Cur, refreshLine_Buffer]; omega
  · rintro e ⟨h0, h1⟩
    unfold editMoveRight
    split_ifs with hc
    · exact ⟨h0, h1⟩
    · simp only [Inv, refreshLine_Cur, refreshLine_Buffer]; omega
  · rintro e ⟨h0, h1⟩
    unfold editMoveHome
    split_ifs with hc
    · exact ⟨h0, h1⟩
    · simp only [Inv, refreshLine_Cur, refreshLine_Buffer]; omega
  · rintro e ⟨h0, h1⟩
    unfold editMoveEnd
    split_ifs with hc
    · exact ⟨h0, h1⟩
    · simp only [Inv, refreshLine_Cur, refreshLine_Buffer]; omega
  · rintro e ⟨h0, h1⟩
    have hlen : (e.Buffer.take e.Cur.toNat).length = e.Cur.toNat := by
      rw [List.length_take]; omega
    simp only [Inv, editKillForward, refreshLine_Cur, refreshLine_Buffer, hlen]
    omega
  · rintro e ⟨h0, h1⟩
    have hp := scanPrevWord_le e.Buffer e.Cur.toNat false
    have hlen : (e.Buffer.take (scanPrevWord e.Buffer e.Cur.toNat false)).length
        = scanPrevWord e.Buffer e.Cur.toNat false := by
      rw [List.length_take]; omega
    simp only [Inv, editDeletePrevWord, refreshLine_Cur, refreshLine_Buffer, hlen]
    omega
  · rintro e ⟨h0, h1⟩
    simp only [editHistoryPrev]
    cases hp : (e.History.save (bufStr e)).prev with
    | error s => exact ⟨h0, h1⟩
    | ok h2 =>
      dsimp only
      cases hg : h2.get with
      | none => simp [InvO]
      | some s =>
        dsimp only
        simp only [InvO, Inv, refreshLine_Cur, refreshLine_Buffer]
        omega
  · rintro e ⟨h0, h1⟩
    simp only [editHistoryNext]
    cases hp : e.History.next with
    | error s => exact ⟨h0, h1⟩
    | ok h2 =>
      dsimp only
      cases hg : h2.get with
      | none => simp [InvO]
      | some s =>
        dsimp only
        simp only [InvO, Inv, refreshLine_Cur, refreshLine_Buffer]
        omega
  · intro e
    simp only [Inv, lineReset, refreshLine_Cur, refreshLine_Buffer]
    omega

/-- Witness for C1 at a concrete mid-buffer state. -/
theorem cursorInvariantPreserved_witness :
    Inv (editInsert tAB 'x').1 ∧ Inv (editBackspace tAB).1 ∧ Inv (editDelete tAB).1 ∧
    InvO (editSwap tAB) ∧ Inv (editMoveLeft tAB).1 ∧ Inv (editMoveRight tAB).1 ∧
    Inv (editMoveHome tAB).1 ∧ Inv (editMoveEnd tAB).1 ∧ Inv (editKillForward tAB).1 ∧
    Inv (editDeletePrevWord tAB).1 ∧ InvO (editHistoryPrev tAB) ∧
    InvO (editHistoryNext tAB) ∧ Inv (lineReset tAB).1 :=
  ⟨cursorInvariantPreserved.1 tAB 'x' (by decide),
   cursorInvariantPreserved.2.1 tAB (by decide),
   cursorInvariantPreserved.2.2.1 tAB (by decide),
   cursorInvariantPreserved.2.2.2.1 tAB,
   cursorInvariantPreserved.2.2.2.2.1 tAB (by decide),
   cursorInvariantPreserved.2.2.2.2.2.1 tAB (by decide),
   cursorInvariantPreserved.2.2.2.2.2.2.1 tAB (by decide),
   cursorInvariantPreserved.2.2.2.2.2.2.2.1 tAB (by decide),
   cursorInvariantPreserved.2.2.2.2.2.2.2.2.1 tAB (by decide),
   cursorInvariantPreserved.2.2.2.2.2.2.2.2.2.1 tAB (by decide),
   cursorInvariantPreserved.2.2.2.2.2.2.2.2.2.2.1 tAB (by decide),
   cursorInvariantPreserved.2.2.2.2.2.2.2.2.2.2.2.1 tAB (by decide),
   cursorInvariantPreserved.2.2.2.2.2.2.2.2.2.2.2.2 tAB⟩

/-- C2: a read failure after ESC, after ESC-bracket, and after ESC-bracket-3
propagates immediately with the buffer accumulated so far and no further
input processed; but in the unrecognized-digit case the trailing read's
error is assigned to a shadowed err variable that is never checked, so the
loop silently continues — demonstrated at a concrete input where the error
vanishes and later input is still processed. -/
theorem midEscapeReadFailure :
    (∀ (e : Term) (s : String) (rest : List In),
       edLoop e (.rune esc :: .err s :: rest) =
         some ⟨e, bufStr e, some (.ioFail s), []⟩) ∧
    (∀ (e : Term) (s : String) (rest : List In),
       edLoop e (.rune esc :: .rune '[' :: .err s :: rest) =
         some ⟨e, bufStr e, some (.ioFail s), []⟩) ∧
    (∀ (e : Term) (s : String) (rest : List In),
       edLoop e (.rune esc :: .rune '[' :: .rune '3' :: .err s :: rest) =
         some ⟨e, bufStr e, some (.ioFail s), []⟩) ∧
    (∀ (e : Term) (s : String) (rest : List In),
       edLoop e (.rune esc :: .rune '[' :: .rune '0' :: .err s :: rest) =
         edLoop e rest) ∧
    ((edLoop t0 [.rune esc, .rune '[', .rune '0', .err "read failure", .rune 'x',
        .rune enter]).map (fun r => (r.line, r.err)) = some ("x", none)) :=
  ⟨fun _ _ _ => rfl, fun _ _ _ => rfl, fun _ _ _ => rfl,
   fun _ _ _ => rfl, rfl⟩

/-- C3: on an R-terminated response with no well-formed cursor-position
report, the regex search comes back empty and Adjust faults dereferencing
the first capture group (modelled as `none`) instead of returning an error. -/
theorem adjustFaultsOnMalformedReport :
    adjust t0 "xR" = none ∧ matchCurPos ("xR".data) = none :=
  ⟨rfl, rfl⟩

/-- C4 counterexample: in a 4-column session, four inserted runes raise
MaxRows to 2, and dispatching ctrl-U (the full line reset) inside the same
session drops it back: the run with the extra ctrl-U ends with MaxRows 1,
below the MaxRows 2 the session had already reached. -/
theorem maxRowsDropsOnCtrlU :
    (lineEditor t4 [.rune 'a', .rune 'a', .rune 'a', .rune 'a',
        .err "read failure"]).map (fun r => r.term.MaxRows) = some 2 ∧
    (lineEditor t4 [.rune 'a', .rune 'a', .rune 'a', .rune 'a', .rune ctrlU,
        .err "read failure"]).map (fun r => r.term.MaxRows) = some 1 :=
  ⟨rfl, rfl⟩

/-- C4 amended: MaxRows never decreases across a render, nor across any
dispatched edit command other than the ctrl-U full line reset; the line
reset (run at session start and on ctrl-U) discards the previous MaxRows
entirely, computing the new value from a zeroed state. -/
theorem maxRowsMonotone :
    (∀ e, e.MaxRows ≤ (refreshLine e).1.MaxRows) ∧
    (∀ e r, e.MaxRows ≤ (editInsert e r).1.MaxRows) ∧
    (∀ e, e.MaxRows ≤ (editBackspace e).1.MaxRows) ∧
    (∀ e, e.MaxRows ≤ (editDelete e).1.MaxRows) ∧
    (∀ e, MaxRowsLeO e (editSwap e)) ∧
    (∀ e, e.MaxRows ≤ (editMoveLeft e).1.MaxRows) ∧
    (∀ e, e.MaxRows ≤ (editMoveRight e).1.MaxRows) ∧
    (∀ e, e.MaxRows ≤ (editMoveHome e).1.MaxRows) ∧
    (∀ e, e.MaxRows ≤ (editMoveEnd e).1.MaxRows) ∧
    (∀ e, e.MaxRows ≤ (editKillForward e).1.MaxRows) ∧
    (∀ e, e.MaxRows ≤ (editDeletePrevWord e).1.MaxRows) ∧
    (∀ e, MaxRowsLeO e (editHistoryPrev e)) ∧
    (∀ e, MaxRowsLeO e (editHistoryNext e)) ∧
    (∀ e, e.MaxRows ≤ (completeLine e).1.MaxRows) ∧
    (∀ e, e.MaxRows ≤ (printHelp e).1.MaxRows) ∧
    (∀ e, (lineReset e).1.MaxRows = (lineReset { e with MaxRows := 0 }).1.MaxRows) := by
  have hrf : ∀ e : Term, e.MaxRows ≤ (refreshLine e).1.MaxRows := by
    intro e; rw [refreshLine_MaxRows]; exact rfNewMaxRows_ge e
  refine ⟨hrf, ?_, ?_, ?_, ?_, ?_, ?_, ?_, ?_, ?_, ?_, ?_, ?_, ?_, ?_, ?_⟩
  · intro e r; exact rfNewMaxRows_ge _
  · intro e; unfold editBackspace
    split_ifs
    · exact le_refl _
    · exact rfNewMaxRows_ge _
  · intro e; unfold editDelete
    split_ifs
    · exact le_refl _
    · exact rfNewMaxRows_ge _
  · intro e
    simp only [editSwap]
    split_ifs with h1 h2 h3
    · exact le_refl _
    · show e.MaxRows ≤ (refreshLine _).1.MaxRows
      rw [refreshLine_MaxRows]
      exact rfNewMaxRows_ge _
    · show e.MaxRows ≤ (refreshLine _).1.MaxRows
      rw [refreshLine_MaxRows]
      exact rfNewMaxRows_ge _
    · exact trivial
  · intro e; unfold editMoveLeft
    split_ifs
    · exact le_refl _
    · exact rfNewMaxRows_ge _
  · intro e; unfold editMoveRight
    split_ifs
    · exact le_refl _
    · exact rfNewMaxRows_ge _
  · intro e; unfold editMoveHome
    split_ifs
    · exact le_refl _
    · exact rfNewMaxRows_ge _
  · intro e; unfold editMoveEnd
    split_ifs
    · exact le_refl _
    · exact rfNewMaxRows_ge _
  · intro e; exact rfNewMaxRows_ge _
  · intro e; exact rfNewMaxRows_ge _
  · intro e
    simp only [editHistoryPrev]
    cases hp : (e.History.save (bufStr e)).prev with
    | error s => exact le_refl _
    | ok h2 =>
      dsimp only
      cases hg : h2.get with
      | none => simp [MaxRowsLeO]
      | some s =>
        dsimp only
        simp only [MaxRowsLeO]
        exact rfNewMaxRows_ge _
  · intro e
    simp only [editHistoryNext]
    cases hp : e.History.next with
    | error s => exact le_refl _
    | ok h2 =>
      dsimp only
      cases hg : h2.get with
      | none => simp [MaxRowsLeO]
      | some s =>
        dsimp only
        simp only [MaxRowsLeO]
        exact rfNewMaxRows_ge _
  · intro e
    simp only [completeLine]
    cases e.Complete with
    | none => exact rfNewMaxRows_ge _
    | some f =>
      dsimp only
      cases f (bufStr e) with
      | nil => exact le_refl _
      | cons c t =>
        cases t with
        | nil => exact rfNewMaxRows_ge _
        | cons c2 t2 => exact rfNewMaxRows_ge _
  · intro e
    simp only [printHelp]
    cases e.Help with
    | none => exact rfNewMaxRows_ge _
    | some f => exact rfNewMaxRows_ge _
  · intro e
    simp only [lineReset, notZero]
    split_ifs <;> rfl

/-- C10: history-prev with the pointer on the scratch slot of a one-entry (or
empty, hence initialized) history beeps and leaves buffer and cursor alone,
but has already overwritten the scratch slot with the live buffer — the
history is mutated although navigation failed. -/
theorem historyPrevAtBoundSaves (e : Term)
    (h1 : e.History.Lines = [] ∨ e.History.Lines.length = 1)
    (h2 : e.History.Pos = 0) :
    editHistoryPrev e =
      some ({ e with History := ⟨[bufStr e], 0⟩ }, [Out.beep]) := by
  simp only [editHistoryPrev]
  have hsave : e.History.save (bufStr e) = ⟨[bufStr e], 0⟩ := by
    rcases h1 with h | h
    · simp [History.save, h, h2]
    · obtain ⟨a, ha⟩ := List.length_eq_one.mp h
      simp [History.save, ha, h2]
  rw [hsave]
  simp [History.prev, beep]

/-- Witness for C10 at a concrete one-entry history. -/
theorem historyPrevAtBoundSaves_witness :
    editHistoryPrev { tA with History := ⟨["old"], 0⟩ } =
      some ({ tA with History := ⟨[bufStr { tA with History := ⟨["old"], 0⟩ }], 0⟩ },
            [Out.beep]) :=
  historyPrevAtBoundSaves { tA with History := ⟨["old"], 0⟩ } (Or.inr rfl) rfl

/-- C5 counterexample: a buffer holding exactly one character satisfies the
claim's precondition, yet ctrl-T emits a bell and changes nothing. -/
theorem editSwapOneCharBeeps : editSwap tA = some (tA, [Out.beep]) := rfl

/-- C5 amended: with at least two characters and the cursor at least 1 (and
within bounds), ctrl-T swaps the runes at p-1 and p, where p is the cursor,
or the index of the last rune when the cursor sits at the end; every other
rune is untouched, the length is preserved, the cursor advances by 1 unless
already at the end, and a render (not a bell) is emitted. -/
theorem editSwapSwaps (e : Term) (hl : 2 ≤ e.Buffer.length)
    (hc1 : 1 ≤ e.Cur) (hle : e.Cur ≤ (e.Buffer.length : Int)) :
    ((editSwap e).map (fun p => p.2) = some [Out.refresh]) ∧
    ((editSwap e).map (fun p => p.1.Buffer.length) = some e.Buffer.length) ∧
    ((editSwap e).map (fun p => p.1.Buffer[(swapPos e).toNat - 1]?) =
       some (e.Buffer[(swapPos e).toNat]?)) ∧
    ((editSwap e).map (fun p => p.1.Buffer[(swapPos e).toNat]?) =
       some (e.Buffer[(swapPos e).toNat - 1]?)) ∧
    (∀ k : Nat, k ≠ (swapPos e).toNat - 1 → k ≠ (swapPos e).toNat →
       (editSwap e).map (fun p => p.1.Buffer[k]?) = some (e.Buffer[k]?)) ∧
    ((editSwap e).map (fun p => p.1.Cur) =
       some (if e.Cur < (e.Buffer.length : Int) then e.Cur + 1 else e.Cur)) := by
  have hrange : 1 ≤ swapPos e ∧ swapPos e < (e.Buffer.length : Int) := by
    unfold swapPos
    split_ifs with hc <;> omega
  have hp0 : ¬ swapPos e = 0 := by omega
  have hswap : editSwap e =
      some (refreshLine { e with
        Buffer := (e.Buffer.set ((swapPos e) - 1).toNat
            (e.Buffer.getD (swapPos e).toNat ' ')).set (swapPos e).toNat
            (e.Buffer.getD ((swapPos e) - 1).toNat ' '),
        Cur := if e.Cur < (e.Buffer.length : Int) then e.Cur + 1 else e.Cur }) := by
    simp only [editSwap, if_neg hp0, if_pos hrange]
  set p := (swapPos e).toNat with hpdef
  have hi : ((swapPos e) - 1).toNat = p - 1 := by omega
  have hplen : p < e.Buffer.length := by omega
  have hp1 : 1 ≤ p := by omega
  have hgd1 : e.Buffer.getD p ' ' = e.Buffer[p] := List.getD_eq_getElem _ _ hplen
  have hgd2 : e.Buffer.getD (p - 1) ' ' = e.Buffer[p - 1] :=
    List.getD_eq_getElem _ _ (by omega)
  rw [hswap]
  refine ⟨rfl, ?_, ?_, ?_, ?_, rfl⟩
  · simp only [Option.map_some', refreshLine_Buffer, List.length_set]
  · simp only [Option.map_some', refreshLine_Buffer, hi, hgd1, hgd2]
    rw [List.getElem?_set_ne (by omega), List.getElem?_set_self (by omega)]
    rw [List.getElem?_eq_getElem hplen]
  · simp only [Option.map_some', refreshLine_Buffer, hi, hgd1, hgd2]
    rw [List.getElem?_set_self (by rw [List.length_set]; omega)]
    rw [List.getElem?_eq_getElem (show p - 1 < e.Buffer.length by omega)]
  · intro k hk1 hk2
    simp only [Option.map_some', refreshLine_Buffer, hi]
    rw [List.getElem?_set_ne (by omega), List.getElem?_set_ne (by omega)]

/-- Witness for the amended C5 on a two-rune buffer. -/
theorem editSwapSwaps_witness :
    ((editSwap tAB).map (fun p => p.2) = some [Out.refresh]) ∧
    ((editSwap tAB).map (fun p => p.1.Buffer.length) = some tAB.Buffer.length) ∧
    ((editSwap tAB).map (fun p => p.1.Buffer[(swapPos tAB).toNat - 1]?) =
       some (tAB.Buffer[(swapPos tAB).toNat]?)) ∧
    ((editSwap tAB).map (fun p => p.1.Buffer[(swapPos tAB).toNat]?) =
       some (tAB.Buffer[(swapPos tAB).toNat - 1]?)) ∧
    ((editSwap tAB).map (fun p => p.1.Buffer[(5 : Nat)]?) =
       some (tAB.Buffer[(5 : Nat)]?)) ∧
    ((editSwap tAB).map (fun p => p.1.Cur) =
       some (if tAB.Cur < (tAB.Buffer.length : Int) then tAB.Cur + 1 else tAB.Cur)) := by
  have h := editSwapSwaps tAB (by decide) (by decide) (by decide)
  exact ⟨h.1, h.2.1, h.2.2.1, h.2.2.2.1,
         h.2.2.2.2.1 5 (by decide) (by decide), h.2.2.2.2.2⟩

/-- The reduction of one loop step on ctrl-D. -/
theorem edLoop_ctrlD (e : Term) (rest : List In) :
    edLoop e (.rune ctrlD :: rest) =
      if e.Buffer = [] then some ⟨e, bufStr e, some .eof, []⟩
      else mapOut (editDelete e).2 (edLoop (editDelete e).1 rest) := rfl

/-- C6: ctrl-D on an empty buffer terminates the session returning the empty
string with the end-of-input signal; ctrl-D on a non-empty buffer removes
the rune at the cursor (a no-op when the cursor is at the end, where
delete-right beeps), keeps the cursor where it was, and the loop goes on —
so ctrl-D signals end-of-input exactly when the buffer is empty. -/
theorem ctrlDDeleteOrEof (e : Term) (rest : List In) :
    (e.Buffer = [] →
       edLoop e (.rune ctrlD :: rest) = some ⟨e, "", some .eof, []⟩) ∧
    (e.Buffer ≠ [] → Inv e →
       edLoop e (.rune ctrlD :: rest) =
         mapOut (editDelete e).2 (edLoop (editDelete e).1 rest) ∧
       (editDelete e).1.Cur = e.Cur ∧
       (editDelete e).1.Buffer = e.Buffer.eraseIdx e.Cur.toNat) := by
  constructor
  · intro h
    rw [edLoop_ctrlD, if_pos h]
    have hb : bufStr e = "" := by rw [bufStr, h]
    rw [hb]
  · rintro h ⟨h0, h1⟩
    refine ⟨by rw [edLoop_ctrlD, if_neg h], ?_, ?_⟩
    · unfold editDelete
      split_ifs <;> rfl
    · unfold editDelete
      split_ifs with hc
      · simp only [beep]
        exact (List.eraseIdx_eq_self.mpr (by omega)).symm
      · rfl

/-- Witness for C6: ctrl-D on the empty state ends with io.EOF, and on a
two-rune state deletes at the cursor and continues. -/
theorem ctrlDDeleteOrEof_witness :
    edLoop t0 [.rune ctrlD] = some ⟨t0, "", some .eof, []⟩ ∧
    edLoop tAB [.rune ctrlD] =
      mapOut (editDelete tAB).2 (edLoop (editDelete tAB).1 []) ∧
    (editDelete tAB).1.Cur = tAB.Cur ∧
    (editDelete tAB).1.Buffer = tAB.Buffer.eraseIdx tAB.Cur.toNat := by
  have h1 := (ctrlDDeleteOrEof t0 []).1 rfl
  have h2 := (ctrlDDeleteOrEof tAB []).2 (by decide) (by decide)
  exact ⟨h1, h2.1, h2.2.1, h2.2.2⟩

/-- C7: Add replaces the scratch (last) entry of the history with the
committed line, appends a fresh empty scratch slot, and points at it; an
empty history behaves as a single empty scratch slot, yielding the two
entries line and empty with the pointer at 1. -/
theorem historyAddFreezesScratch (h : History) (l : String) :
    (h.Lines ≠ [] →
       (h.add l).Lines = h.Lines.dropLast ++ [l, ""] ∧
       (h.add l).Pos = (h.Lines.length : Int)) ∧
    (h.Lines = [] → (h.add l).Lines = [l, ""] ∧ (h.add l).Pos = 1) := by
  constructor
  · intro hne
    simp only [History.add, if_neg hne]
    constructor
    · rw [setLastEq _ _ hne]
      simp
    · simp [List.length_set]
  · intro he
    simp [History.add, he]

/-- Witness for C7 on a two-entry history and on the empty history. -/
theorem historyAddFreezesScratch_witness :
    (History.add ⟨["a", ""], 1⟩ "x").Lines = ["a", "x", ""] ∧
    (History.add ⟨["a", ""], 1⟩ "x").Pos = 2 ∧
    (History.add ⟨[], 0⟩ "y").Lines = ["y", ""] ∧
    (History.add ⟨[], 0⟩ "y").Pos = 1 := by
  have h1 := (historyAddFreezesScratch ⟨["a", ""], 1⟩ "x").1 (by decide)
  have h2 := (historyAddFreezesScratch ⟨[], 0⟩ "y").2 rfl
  exact ⟨h1.1.trans (by decide), h1.2.trans (by decide), h2.1, h2.2⟩

/-- C8: Save keeps the pointer, and writes the line into the scratch (last)
slot exactly when the pointer is on it, leaving all other entries — and in
the off-scratch case the whole entry list — unchanged; an empty history is
first initialized to a single empty scratch slot. -/
theorem historySaveOnlyScratch (h : History) (l : String) :
    (h.save l).Pos = h.Pos ∧
    (h.save l).Lines =
      (if h.Pos = ((if h.Lines = [] then [""] else h.Lines).length : Int) - 1
       then (if h.Lines = [] then [""] else h.Lines).dropLast ++ [l]
       else (if h.Lines = [] then [""] else h.Lines)) := by
  constructor
  · simp only [History.save]
    split_ifs <;> rfl
  · simp only [History.save]
    set L := if h.Lines = [] then [""] else h.Lines with hL
    have hLne : L ≠ [] := by
      rw [hL]; split_ifs with he
      · simp
      · exact he
    by_cases hp : h.Pos = (L.length : Int) - 1
    · rw [if_neg (by omega), if_pos hp]
      exact setLastEq _ _ hLne
    · rw [if_pos (by omega), if_neg hp]

/-- A render never touches the completion provider. -/
theorem refreshLine_Complete (e : Term) : (refreshLine e).1.Complete = e.Complete := rfl

/-- C9: the tab key follows the grid policy: without a provider a literal tab
rune is inserted at the cursor (cursor advances by 1); with a provider, zero
candidates beep and change nothing, one candidate replaces the buffer with
the candidate and puts the cursor at its end, and two or more candidates
print the grid below the prompt leaving buffer and cursor alone — and a
second tab prints the same grid again. -/
theorem completionPolicy (e : Term) :
    (e.Complete = none →
       completeLine e = editInsert e tab ∧
       (editInsert e tab).1.Buffer = e.Buffer.insertIdx e.Cur.toNat tab ∧
       (editInsert e tab).1.Cur = e.Cur + 1) ∧
    (∀ f, e.Complete = some f →
       (f (bufStr e) = [] →
          completeLine e = (e, [Out.beep])) ∧
       (∀ c, f (bufStr e) = [c] →
          (completeLine e).1.Buffer = c.data ∧
          (completeLine e).1.Cur = (c.data.length : Int) ∧
          (completeLine e).2 = [Out.refresh]) ∧
       (2 ≤ (f (bufStr e)).length →
          (completeLine e).1.Buffer = e.Buffer ∧
          (completeLine e).1.Cur = e.Cur ∧
          (completeLine e).2 = [Out.grid (f (bufStr e)), Out.refresh] ∧
          (completeLine (completeLine e).1).2 =
            [Out.grid (f (bufStr e)), Out.refresh])) := by
  constructor
  · intro hc
    refine ⟨by simp [completeLine, hc], rfl, rfl⟩
  · intro f hc
    refine ⟨?_, ?_, ?_⟩
    · intro hf
      simp only [completeLine, hc, hf, beep]
    · intro c hf
      simp only [completeLine, hc, hf]
      exact ⟨rfl, rfl, rfl⟩
    · intro hf
      rcases hopts : f (bufStr e) with _ | ⟨c1, _ | ⟨c2, t⟩⟩
      · rw [hopts] at hf; simp at hf
      · rw [hopts] at hf; simp at hf
      · have hgrid : ∀ e2 : Term, e2.Complete = some f →
            f (bufStr e2) = c1 :: c2 :: t →
            completeLine e2 =
              ((refreshLine e2).1, Out.grid (f (bufStr e2)) :: (refreshLine e2).2) := by
          intro e2 hc2 hf2
          simp only [completeLine, hc2, hf2]
        have hstep := hgrid e hc hopts
        have hbuf : (completeLine e).1.Buffer = e.Buffer := by
          rw [hstep, refreshLine_Buffer]
        have hbufStr : bufStr (completeLine e).1 = bufStr e := by
          rw [bufStr, bufStr, hbuf]
        have hcomp : (completeLine e).1.Complete = some f := by
          rw [hstep, refreshLine_Complete]; exact hc
        have hopts2 : f (bufStr (completeLine e).1) = c1 :: c2 :: t := by
          rw [hbufStr]; exact hopts
        have hstep2 := hgrid (completeLine e).1 hcomp hopts2
        refine ⟨hbuf, by rw [hstep, refreshLine_Cur], ?_, ?_⟩
        · rw [hstep, hopts]
          rfl
        · rw [hstep2, hopts2]
          rfl

/-- A completion provider returning three candidates. -/
def threeOpts : String → List String := fun _ => ["aa", "bb", "cc"]

/-- Concrete state with the three-candidate provider. -/
def tGrid : Term := { tAB with Complete := some threeOpts }

/-- Concrete state with a single-candidate provider. -/
def tOne : Term := { tAB with Complete := some (fun _ => ["xyz"]) }

/-- Concrete state with a zero-candidate provider. -/
def tZero : Term := { tAB with Complete := some (fun _ => []) }

/-- Witness for C9 across all four policy branches. -/
theorem completionPolicy_witness :
    completeLine tAB = editInsert tAB tab ∧
    completeLine tZero = (tZero, [Out.beep]) ∧
    (completeLine tOne).1.Buffer = "xyz".data ∧
    (completeLine tOne).1.Cur = ("xyz".data.length : Int) ∧
    (completeLine tGrid).1.Buffer = tGrid.Buffer ∧
    (completeLine tGrid).2 = [Out.grid (threeOpts (bufStr tGrid)), Out.refresh] ∧
    (completeLine (completeLine tGrid).1).2 =
      [Out.grid (threeOpts (bufStr tGrid)), Out.refresh] := by
  have h1 := (completionPolicy tAB).1 rfl
  have h0 := ((completionPolicy tZero).2 (fun _ => []) rfl).1 rfl
  have hOne := ((completionPolicy tOne).2 (fun _ => ["xyz"]) rfl).2.1 "xyz" rfl
  have hG := ((completionPolicy tGrid).2 threeOpts rfl).2.2 (by decide)
  exact ⟨h1.1, h0, hOne.1, hOne.2.1, hG.1, hG.2.2.1, hG.2.2.2⟩
